import Mathlib

/-!
A shallow embedding of the claude-go-adk adapter (package `claude`): the
request mapper, invocation layer and response mapper from `convert.go`,
`model.go` (`src/unnamed/part_000`) and `claude.go` (`src/unnamed/part_001`),
with the `genai` / `adk` / `anthropic-sdk-go` data shapes they touch.

Modelling conventions:
- Go strings are `String`, Go `int32`/`int64` fields are `Int` (conversions
  that truncate are modelled explicitly, see `int32` and `int64` below).
- Go nil pointers are `Option.none`; nil slices and empty slices are both `[]`.
- Go `any` values (the dynamic payloads of `map[string]any`) are `GoVal`,
  which keeps the dynamic distinction between `[]string` and `[]any` that the
  type assertions in the two `extractTools` versions test.
- `encoding/json`'s Marshal-then-Unmarshal composition on such values is
  `jsonRoundTrip` (JSON numbers are kept as integers and string escaping is
  not modelled; no claim depends on either).
- `iter.Seq2[*model.LLMResponse, error]` is modelled as the list of yielded
  pairs, assuming the consumer never cancels; the outcome of the blocking SDK
  call, the stream's events and the stream's terminal error are parameters.
- Logging (`m.logger.Printf`, `log.Printf`) has no observable effect and is
  dropped.
-/

namespace Claude

/-- Go dynamic (`any`) values as they occur in this adapter: JSON scalars,
`[]string`, `[]any` and `map[string]any` (modelled as an association list in
insertion order; all maps built by the source have distinct keys). -/
inductive GoVal where
  | vnull
  | vbool (b : Bool)
  | vnum (n : Int)
  | vstr (s : String)
  | vstrList (l : List String)
  | vanyList (l : List GoVal)
  | vmap (l : List (String × GoVal))

mutual

/-- `encoding/json`: the composition of `json.Marshal` and `json.Unmarshal`
into `any`, on Go dynamic values. Typed slices such as `[]string` come back as
`[]any`; values already in unmarshal's image are fixed points. -/
def jsonRoundTrip : GoVal → GoVal
  | .vnull => .vnull
  | .vbool b => .vbool b
  | .vnum n => .vnum n
  | .vstr s => .vstr s
  | .vstrList l => .vanyList (l.map GoVal.vstr)
  | .vanyList l => .vanyList (jsonRoundTripList l)
  | .vmap l => .vmap (jsonRoundTripPairs l)

def jsonRoundTripList : List GoVal → List GoVal
  | [] => []
  | v :: vs => jsonRoundTrip v :: jsonRoundTripList vs

def jsonRoundTripPairs : List (String × GoVal) → List (String × GoVal)
  | [] => []
  | (k, v) :: vs => (k, jsonRoundTrip v) :: jsonRoundTripPairs vs

end

/-- Go's conversion `int32(x)` on an integer: two's-complement truncation to
32 bits (a reduction modulo 2^32 into [-2^31, 2^31)). -/
def int32 (x : Int) : Int := (x + 2 ^ 31) % 2 ^ 32 - 2 ^ 31

/-- Go's 64-bit wrap-around, applied to model `int64` arithmetic such as the
addition in `usageToMetadata`. -/
def int64 (x : Int) : Int := (x + 2 ^ 63) % 2 ^ 64 - 2 ^ 63

/-! ### The genai / adk side of the translation -/

/-- genai.FunctionCall (the fields the adapter reads): `Args` is
`map[string]any`. -/
structure FunctionCall where
  id : String
  name : String
  args : List (String × GoVal)

/-- genai.FunctionResponse (the fields the adapter reads). -/
structure FunctionResponse where
  id : String
  name : String
  response : List (String × GoVal)

/-- genai.Part, restricted to the fields the adapter reads: text,
function call, function response. -/
structure Part where
  text : String
  functionCall : Option FunctionCall
  functionResponse : Option FunctionResponse

/-- genai.Content: a role and a list of parts (nil part pointers would crash
the Go code on first read, so parts are modelled non-nil). -/
structure Content where
  role : String
  parts : List Part

/-- genai.Schema, restricted to the fields `schemaToMap` reads. `properties`
is a Go map iterated in some order; the model fixes one. -/
inductive Schema where
  | mk (type : String) (description : String)
       (properties : List (String × Schema))
       (required : List String) (enum : List String)
       (items : Option Schema)

/-- genai.FunctionDeclaration: structured `Parameters` or raw
`ParametersJsonSchema`. -/
structure FunctionDeclaration where
  name : String
  description : String
  parameters : Option Schema
  parametersJsonSchema : Option GoVal

/-- genai.Tool (the one field the adapter reads). -/
structure Tool where
  functionDeclarations : List FunctionDeclaration

/-- genai.GenerateContentConfig, restricted to the fields `buildParams`
reads. -/
structure GenerateContentConfig where
  systemInstruction : Option Content
  maxOutputTokens : Int
  temperature : Option Float
  topP : Option Float
  stopSequences : List String
  tools : List Tool

/-- model.LLMRequest: contents (`[]*genai.Content`, entries may be nil) and
an optional config. -/
structure LLMRequest where
  contents : List (Option Content)
  config : Option GenerateContentConfig

/-- genai.GenerateContentResponseUsageMetadata (the fields the adapter
sets; they are `int32` in Go). -/
structure GenerateContentResponseUsageMetadata where
  promptTokenCount : Int
  candidatesTokenCount : Int
  totalTokenCount : Int

/-- model.LLMResponse, restricted to the fields the adapter sets. Go zero
values: empty finish reason, nil usage, false flags. -/
structure LLMResponse where
  content : Option Content
  finishReason : String
  usageMetadata : Option GenerateContentResponseUsageMetadata
  Partial : Bool
  turnComplete : Bool

/-! ### The anthropic-sdk-go side -/

/-- anthropic.TextBlockParam. -/
structure TextBlockParam where
  type : String
  text : String

/-- anthropic.ContentBlockParamUnion, restricted to the variants the adapter
builds. `NewToolUseBlock`'s input and `NewToolResultBlock`'s content keep
their structured value (the JSON wire bytes are not modelled). -/
inductive ContentBlockParamUnion where
  | text (s : String)
  | toolUse (id : String) (input : GoVal) (name : String)
  | toolResult (toolUseID : String) (content : List (String × GoVal)) (isError : Bool)

/-- anthropic.MessageParam: role is the string constant `"user"` or
`"assistant"`. -/
structure MessageParam where
  role : String
  content : List ContentBlockParamUnion

/-- anthropic.NewAssistantMessage. -/
def NewAssistantMessage (blocks : List ContentBlockParamUnion) : MessageParam :=
  { role := "assistant", content := blocks }

/-- anthropic.NewUserMessage. -/
def NewUserMessage (blocks : List ContentBlockParamUnion) : MessageParam :=
  { role := "user", content := blocks }

/-- anthropic.ToolInputSchemaParam: `Properties` is a Go `any` (nil when
never assigned), `Required` a `[]string` (nil when never assigned). -/
structure ToolInputSchemaParam where
  type : String
  properties : Option GoVal
  required : List String

/-- anthropic.ToolParam (description is wrapped by `anthropic.String`; the
option wrapper is dropped since the adapter always sets it). -/
structure ToolParam where
  name : String
  description : String
  inputSchema : ToolInputSchemaParam

/-- anthropic.ToolUnionParam (only the `OfTool` variant is built). -/
structure ToolUnionParam where
  ofTool : Option ToolParam

/-- anthropic.ToolChoiceAutoParam as built by `buildParams`. -/
structure ToolChoiceAutoParam where
  type : String
  disableParallelToolUse : Bool

/-- anthropic.Usage (int64 token counts). -/
structure Usage where
  inputTokens : Int
  outputTokens : Int

/-- anthropic.ContentBlockUnion: the SDK's flat union struct. `type`
discriminates; `text` is meaningful for text blocks, `id`/`name`/`input` for
tool_use blocks. `partialJSON` holds streamed tool-input fragments (their
JSON decoding is not modelled; no claim touches it). -/
structure ContentBlock where
  type : String
  text : String
  id : String
  name : String
  input : GoVal
  partialJSON : String

/-- anthropic.Message (the fields the adapter reads); stop reason is a
string constant such as "end_turn". -/
structure Message where
  content : List ContentBlock
  stopReason : String
  usage : Usage

/-- anthropic.MessageNewParams, restricted to the fields the adapter sets. -/
structure MessageNewParams where
  model : String
  maxTokens : Int
  messages : List MessageParam
  system : List TextBlockParam
  temperature : Option Float
  topP : Option Float
  stopSequences : List String
  tools : List ToolUnionParam
  toolChoice : Option ToolChoiceAutoParam

/-- anthropic stop-reason constants. -/
def StopReasonEndTurn : String := "end_turn"

def StopReasonMaxTokens : String := "max_tokens"

def StopReasonToolUse : String := "tool_use"

/-- genai finish-reason constants. -/
def FinishReasonStop : String := "STOP"

def FinishReasonMaxTokens : String := "MAX_TOKENS"

def FinishReasonOther : String := "OTHER"

/-! ### convert.go / model.go: the request mapper -/

def defaultMaxTokens : Int := 8192

/-- The loop body of `systemFromContent`: the non-empty texts of the parts,
in order. -/
def nonEmptyTexts : List Part → List String
  | [] => []
  | p :: rest => if p.text = "" then nonEmptyTexts rest else p.text :: nonEmptyTexts rest

/-- `systemFromContent` (identical in convert.go and model.go). -/
def systemFromContent (c : Content) : List TextBlockParam :=
  match nonEmptyTexts c.parts with
  | [] => []
  | ps => [{ type := "text", text := String.intercalate "\n" ps }]

/-- `partsToBlocks` (identical in convert.go and model.go up to logging):
text wins over function call wins over function response; a part with none
of the three yields no block. `json.Marshal(p.FunctionResponse.Response)` is
kept structured (see `ContentBlockParamUnion`). -/
def partsToBlocks : List Part → List ContentBlockParamUnion
  | [] => []
  | p :: rest =>
    if p.text ≠ "" then
      ContentBlockParamUnion.text p.text :: partsToBlocks rest
    else
      match p.functionCall with
      | some fc => ContentBlockParamUnion.toolUse fc.id (GoVal.vmap fc.args) fc.name :: partsToBlocks rest
      | none =>
        match p.functionResponse with
        | some fr => ContentBlockParamUnion.toolResult fr.id fr.response false :: partsToBlocks rest
        | none => partsToBlocks rest

/-- `contentsToMessages` (identical in convert.go and model.go up to
logging): nil contents and contents yielding no block are skipped; role
"model" or "assistant" becomes an assistant message, anything else a user
message. -/
def contentsToMessages : List (Option Content) → List MessageParam
  | [] => []
  | none :: rest => contentsToMessages rest
  | some c :: rest =>
    match partsToBlocks c.parts with
    | [] => contentsToMessages rest
    | b :: bs =>
      (if c.role = "model" ∨ c.role = "assistant" then
        NewAssistantMessage (b :: bs)
      else
        NewUserMessage (b :: bs)) :: contentsToMessages rest

mutual

/-- `schemaToMap` (identical in convert.go and model.go), with the Go map's
keys listed in insertion order. The nil-receiver case is the `none` arm. -/
def schemaToMap : Option Schema → List (String × GoVal)
  | none => [("type", GoVal.vstr "object")]
  | some (.mk ty desc props req en items) =>
    [("type", GoVal.vstr ty.toLower)]
      ++ (if desc = "" then [] else [("description", GoVal.vstr desc)])
      ++ (if props.isEmpty then [] else [("properties", GoVal.vmap (schemaToMapProps props))])
      ++ (match req with
          | [] => []
          | _ => [("required", GoVal.vstrList req)])
      ++ (match en with
          | [] => []
          | _ => [("enum", GoVal.vstrList en)])
      ++ (match items with
          | some it => [("items", GoVal.vmap (schemaToMap (some it)))]
          | none => [])
termination_by o => sizeOf o
decreasing_by
  all_goals simp_wf
  all_goals omega

def schemaToMapProps : List (String × Schema) → List (String × GoVal)
  | [] => []
  | (k, v) :: rest => (k, GoVal.vmap (schemaToMap (some v))) :: schemaToMapProps rest
termination_by l => sizeOf l
decreasing_by
  all_goals simp_wf
  all_goals omega

end

/-- One tool of the free `extractTools` in convert.go. -/
def toolFromFD (fd : FunctionDeclaration) : ToolUnionParam :=
  let schema := schemaToMap fd.parameters
  { ofTool := some
      { name := fd.name
        description := fd.description
        inputSchema :=
          { type := "object"
            properties := schema.lookup "properties"
            required :=
              match schema.lookup "required" with
              | some (.vstrList req) => req
              | _ => [] } } }

def extractToolsFor : List FunctionDeclaration → List ToolUnionParam
  | [] => []
  | fd :: fds => toolFromFD fd :: extractToolsFor fds

/-- The free `extractTools` of convert.go: one provider tool per function
declaration, in order. -/
def extractTools : List Tool → List ToolUnionParam
  | [] => []
  | t :: ts => extractToolsFor t.functionDeclarations ++ extractTools ts

/-- One tool of the method `(*claudeModel).extractTools` in model.go: a
structured `Parameters` schema wins; otherwise `ParametersJsonSchema` is
marshalled and unmarshalled into `map[string]any` (a failed unmarshal, or a
JSON null, leaves the input schema at its `Type: "object"` default, which is
also what the nil-map lookups produce in Go). -/
def claudeModel.toolFromFD (fd : FunctionDeclaration) : ToolUnionParam :=
  let base : ToolInputSchemaParam := { type := "object", properties := none, required := [] }
  let inputSchema :=
    match fd.parameters with
    | some _ =>
      let schema := schemaToMap fd.parameters
      { base with
          properties := schema.lookup "properties"
          required :=
            match schema.lookup "required" with
            | some (.vstrList req) => req
            | _ => base.required }
    | none =>
      match fd.parametersJsonSchema with
      | some pjs =>
        match jsonRoundTrip pjs with
        | .vmap schemaMap =>
          { base with
              properties := schemaMap.lookup "properties"
              required :=
                match schemaMap.lookup "required" with
                | some (.vanyList raw) =>
                  raw.filterMap (fun r => match r with | .vstr s => some s | _ => none)
                | _ => base.required }
        | _ => base
      | none => base
  { ofTool := some
      { name := fd.name, description := fd.description, inputSchema := inputSchema } }

def claudeModel.extractToolsFor : List FunctionDeclaration → List ToolUnionParam
  | [] => []
  | fd :: fds => claudeModel.toolFromFD fd :: claudeModel.extractToolsFor fds

/-- The method `(*claudeModel).extractTools` of model.go (the receiver is
only used for logging and is dropped). -/
def claudeModel.extractTools : List Tool → List ToolUnionParam
  | [] => []
  | t :: ts => claudeModel.extractToolsFor t.functionDeclarations ++ claudeModel.extractTools ts

/-- `(*claudeModel).buildParams` of model.go (convert.go's free `buildParams`
differs only in using the free `extractTools`): defaults, then a chain of
conditional field updates driven by the config. -/
def buildParams (modelName : String) (req : LLMRequest) : MessageNewParams :=
  let params : MessageNewParams :=
    { model := modelName
      maxTokens := defaultMaxTokens
      messages := contentsToMessages req.contents
      system := []
      temperature := none
      topP := none
      stopSequences := []
      tools := []
      toolChoice := none }
  match req.config with
  | none => params
  | some cfg =>
    let p1 :=
      match cfg.systemInstruction with
      | some si =>
        match systemFromContent si with
        | [] => params
        | sys => { params with system := sys }
      | none => params
    let p2 := if cfg.maxOutputTokens > 0 then { p1 with maxTokens := cfg.maxOutputTokens } else p1
    let p3 :=
      match cfg.temperature with
      | some t => { p2 with temperature := some t }
      | none => p2
    let p4 :=
      match cfg.topP with
      | some t => { p3 with topP := some t }
      | none => p3
    let p5 :=
      match cfg.stopSequences with
      | [] => p4
      | _ => { p4 with stopSequences := cfg.stopSequences }
    match claudeModel.extractTools cfg.tools with
    | [] => p5
    | tool :: tools =>
      { p5 with
          tools := tool :: tools
          toolChoice := some { type := "auto", disableParallelToolUse := true } }

/-! ### convert.go / model.go: the response mapper -/

/-- `stopToFinish` (identical in convert.go and model.go): the Go switch on
the stop-reason string. -/
def stopToFinish (reason : String) : String :=
  if reason = StopReasonEndTurn then FinishReasonStop
  else if reason = StopReasonMaxTokens then FinishReasonMaxTokens
  else if reason = StopReasonToolUse then FinishReasonStop
  else FinishReasonOther

/-- `usageToMetadata` (identical in convert.go and model.go): `int32`
conversions of the int64 counts; the sum is computed in int64 first. -/
def usageToMetadata (u : Usage) : GenerateContentResponseUsageMetadata :=
  { promptTokenCount := int32 u.inputTokens
    candidatesTokenCount := int32 u.outputTokens
    totalTokenCount := int32 (int64 (u.inputTokens + u.outputTokens)) }

/-- `json.Unmarshal(tu.Input, &args)` with the error ignored: on the wire
`tu.Input` is the JSON encoding of the block's input value, so decoding it
yields `jsonRoundTrip` of that value when it is an object, and leaves `args`
a nil map otherwise. -/
def unmarshalArgs (v : GoVal) : List (String × GoVal) :=
  match jsonRoundTrip v with
  | .vmap m => m
  | _ => []

/-- The per-block case of `messageToLLMResponse`'s loop: text blocks become
text parts, tool_use blocks become function-call parts, other block types
are skipped. -/
def partOfBlock (b : ContentBlock) : Option Part :=
  if b.type = "text" then
    some { text := b.text, functionCall := none, functionResponse := none }
  else if b.type = "tool_use" then
    some { text := ""
           functionCall := some { id := b.id, name := b.name, args := unmarshalArgs b.input }
           functionResponse := none }
  else none

/-- `messageToLLMResponse` (identical in convert.go and model.go up to
logging). Unset Go fields keep their zero values. -/
def messageToLLMResponse (msg : Message) : LLMResponse :=
  { content := some { role := "model", parts := msg.content.filterMap partOfBlock }
    finishReason := stopToFinish msg.stopReason
    usageMetadata := some (usageToMetadata msg.usage)
    Partial := false
    turnComplete := false }

/-! ### claude.go: the invocation layer

The `iter.Seq2[*model.LLMResponse, error]` returned by `GenerateContent` and
`generateStream` is modelled as the list of `(response, error)` pairs the
sequence yields, assuming the consumer never stops early. Errors are their
messages. -/

/-- The non-streaming branch of `(*claudeModel).GenerateContent`: the outcome
of the single blocking `m.client.Messages.New` call is the parameter. -/
def GenerateContent (callResult : Except String Message) : List (Option LLMResponse × Option String) :=
  match callResult with
  | .error err => [(none, some ("claude: " ++ err))]
  | .ok msg => [(some (messageToLLMResponse msg), none)]

/-- anthropic.MessageStreamEventUnion, discriminated by its `Type` string as
the SDK and `textDelta` do. -/
inductive Delta where
  | textDelta (text : String)
  | inputJSONDelta (partialJSON : String)
  | otherDelta

inductive MessageStreamEventUnion where
  | messageStart (message : Message)
  | contentBlockStart (index : Nat) (block : ContentBlock)
  | contentBlockDelta (index : Nat) (delta : Delta)
  | contentBlockStop (index : Nat)
  | messageDelta (stopReason : String) (usage : Usage)
  | messageStop

/-- `(anthropic.Message).Accumulate`, modelled from the Anthropic SDK (a
dependency, not part of this repository): message_start installs the event's
message, content_block_start appends the event's block, content_block_delta
mutates the indexed block (text deltas extend its text, input-json deltas
extend its partial JSON), message_delta updates stop reason and usage; a
delta whose index has no block is an error. -/
def Accumulate (msg : Message) (e : MessageStreamEventUnion) : Except String Message :=
  match e with
  | .messageStart m => .ok m
  | .contentBlockStart _ b => .ok { msg with content := msg.content ++ [b] }
  | .contentBlockDelta index d =>
    if h : index < msg.content.length then
      match d with
      | .textDelta s =>
        let b := msg.content.get ⟨index, h⟩
        .ok { msg with content := msg.content.set index { b with text := b.text ++ s } }
      | .inputJSONDelta s =>
        let b := msg.content.get ⟨index, h⟩
        .ok { msg with content := msg.content.set index { b with partialJSON := b.partialJSON ++ s } }
      | .otherDelta => .ok msg
    else .error "content block index out of range"
  | .contentBlockStop _ => .ok msg
  | .messageDelta sr u => .ok { msg with stopReason := sr, usage := u }
  | .messageStop => .ok msg

/-- `textDelta` of claude.go: the text of a content_block_delta event whose
delta is a text_delta. -/
def textDelta : MessageStreamEventUnion → Option String
  | .contentBlockDelta _ (.textDelta s) => some s
  | _ => none

/-- The zero value of `var msg anthropic.Message`. -/
def zeroMessage : Message :=
  { content := [], stopReason := "", usage := { inputTokens := 0, outputTokens := 0 } }

/-- The partial response `generateStream` yields for one text delta (other
fields keep their Go zero values). -/
def partialTextResponse (delta : String) : LLMResponse :=
  { content := some
      { role := "model"
        parts := [{ text := delta, functionCall := none, functionResponse := none }] }
    finishReason := ""
    usageMetadata := none
    Partial := true
    turnComplete := false }

/-- The loop of `(*claudeModel).generateStream`, from the current accumulated
message: consume the remaining events (yielding a partial response per text
delta), then either report the stream's terminal error or yield the fully
accumulated response with `TurnComplete` set. -/
def generateStreamLoop (msg : Message) :
    List MessageStreamEventUnion → Option String → List (Option LLMResponse × Option String)
  | [], streamErr =>
    match streamErr with
    | some err => [(none, some ("claude: stream: " ++ err))]
    | none => [(some { messageToLLMResponse msg with turnComplete := true }, none)]
  | e :: es, streamErr =>
    match Accumulate msg e with
    | .error err => [(none, some ("claude: accumulate: " ++ err))]
    | .ok msg2 =>
      match textDelta e with
      | some d => (some (partialTextResponse d), none) :: generateStreamLoop msg2 es streamErr
      | none => generateStreamLoop msg2 es streamErr

/-- `(*claudeModel).generateStream`: the provider's event sequence and the
stream's terminal error (`stream.Err()`) are the parameters. -/
def generateStream (events : List MessageStreamEventUnion) (streamErr : Option String) :
    List (Option LLMResponse × Option String) :=
  generateStreamLoop zeroMessage events streamErr

/-- The accumulated message after a list of events, ignoring failing events
(only used under `streamWF`, which rules failures out). -/
def accumFold (msg : Message) : List MessageStreamEventUnion → Message
  | [] => msg
  | e :: es =>
    match Accumulate msg e with
    | .ok msg2 => accumFold msg2 es
    | .error _ => accumFold msg es

/-- The final response of an error-free stream. -/
def finalResponse (events : List MessageStreamEventUnion) : LLMResponse :=
  { messageToLLMResponse (accumFold zeroMessage events) with turnComplete := true }

/-- The text deltas of an event sequence, in order. -/
def textDeltas : List MessageStreamEventUnion → List String
  | [] => []
  | e :: es =>
    match textDelta e with
    | some d => d :: textDeltas es
    | none => textDeltas es

/-- Concatenation of a list of strings (the "accumulated full turn"). -/
def strConcat : List String → String
  | [] => ""
  | s :: rest => s ++ strConcat rest

/-- The text carried by a response: the concatenation of its parts' texts. -/
def respText (r : LLMResponse) : String :=
  match r.content with
  | some c => strConcat (c.parts.map Part.text)
  | none => ""

/-- The text a content block contributes to the turn: its text when it is a
text block, nothing otherwise. -/
def blockText (b : ContentBlock) : String :=
  if b.type = "text" then b.text else ""

/-- The text carried by an accumulated provider message: the concatenation of
its text blocks' texts. -/
def msgText (msg : Message) : String :=
  strConcat (msg.content.map blockText)

/-- Well-formedness of a provider event stream against the accumulation
state, as the Messages streaming protocol guarantees it: message_start only
delivers an empty message before any content, blocks start with empty text,
every delta addresses an existing block, and a text delta addresses the last
block, which is a text block. `false` as soon as `Accumulate` would fail. -/
def eventOK (msg : Message) : MessageStreamEventUnion → Bool
  | .messageStart m => m.content.isEmpty && msg.content.isEmpty
  | .contentBlockStart _ b => b.text == ""
  | .contentBlockDelta index d =>
    if h : index < msg.content.length then
      match d with
      | .textDelta _ =>
        index + 1 == msg.content.length && (msg.content.get ⟨index, h⟩).type == "text"
      | _ => true
    else false
  | _ => true

def streamWF (msg : Message) : List MessageStreamEventUnion → Bool
  | [] => true
  | e :: es =>
    eventOK msg e &&
      match Accumulate msg e with
      | .ok msg2 => streamWF msg2 es
      | .error _ => false

/-- The provider reply block that echoes a tool_use request block: the wire
carries the block's id, name and the JSON encoding of its input. -/
def echoToolUse (id : String) (input : GoVal) (name : String) : ContentBlock :=
  { type := "tool_use", text := "", id := id, name := name, input := input, partialJSON := "" }

/-- A concrete well-formed provider event stream with two text deltas, as
the Messages streaming protocol emits it. -/
def evC2 : List MessageStreamEventUnion :=
  [MessageStreamEventUnion.messageStart zeroMessage,
   MessageStreamEventUnion.contentBlockStart 0
     { type := "text", text := "", id := "", name := "", input := GoVal.vnull, partialJSON := "" },
   MessageStreamEventUnion.contentBlockDelta 0 (Delta.textDelta "Hel"),
   MessageStreamEventUnion.contentBlockDelta 0 (Delta.textDelta "lo"),
   MessageStreamEventUnion.contentBlockStop 0,
   MessageStreamEventUnion.messageDelta "end_turn" { inputTokens := 3, outputTokens := 5 },
   MessageStreamEventUnion.messageStop]

/-! ### Shared lemmas -/

theorem strConcat_append (a b : List String) :
    strConcat (a ++ b) = strConcat a ++ strConcat b := by
  induction a with
  | nil => simp [strConcat, String.empty_append]
  | cons s rest ih => simp [strConcat, ih, String.append_assoc]

/-! ### C1: finish-reason normalization -/

/-- C1 counterexample: the claim that the four stop causes get pairwise
distinct normalized codes is false — `stopToFinish` sends a tool-invocation
stop and a natural stop to the same code, `FinishReasonStop`. -/
theorem stopToFinish_toolUse_collides :
    stopToFinish StopReasonToolUse = stopToFinish StopReasonEndTurn ∧
    stopToFinish StopReasonToolUse = FinishReasonStop := by
  exact ⟨rfl, rfl⟩

/-- C1 (amended): `stopToFinish` maps end_turn to STOP, max_tokens to
MAX_TOKENS, tool_use also to STOP (the same code as a natural stop), and
every other stop reason to OTHER. -/
theorem stopToFinish_mapping :
    stopToFinish StopReasonEndTurn = FinishReasonStop ∧
    stopToFinish StopReasonMaxTokens = FinishReasonMaxTokens ∧
    stopToFinish StopReasonToolUse = FinishReasonStop ∧
    ∀ r : String, r ≠ StopReasonEndTurn → r ≠ StopReasonMaxTokens →
      r ≠ StopReasonToolUse → stopToFinish r = FinishReasonOther := by
  refine ⟨rfl, rfl, rfl, fun r h1 h2 h3 => ?_⟩
  simp [stopToFinish, h1, h2, h3]

/-- C1 witness: the amended mapping evaluated at the concrete stop reason
"stop_sequence". -/
theorem stopToFinish_mapping_witness :
    stopToFinish "stop_sequence" = FinishReasonOther :=
  stopToFinish_mapping.2.2.2 "stop_sequence" (by decide) (by decide) (by decide)

/-! ### C3: the non-streaming invocation -/

/-- C3: in non-streaming mode `GenerateContent` yields exactly one pair: on a
failed blocking call, a nil response with the provider error wrapped under
"claude: "; on success, the mapped response with a nil error. -/
theorem GenerateContent_single_yield :
    (∀ callResult : Except String Message, (GenerateContent callResult).length = 1) ∧
    (∀ err : String, GenerateContent (.error err) = [(none, some ("claude: " ++ err))]) ∧
    (∀ msg : Message, GenerateContent (.ok msg) = [(some (messageToLLMResponse msg), none)]) := by
  refine ⟨fun callResult => ?_, fun err => rfl, fun msg => rfl⟩
  cases callResult <;> rfl

/-! ### C5: token-usage normalization -/

/-- C5: the normalized usage metadata carries the provider's input tokens,
output tokens and their sum, each reduced modulo 2^32 by the int64-to-int32
conversion (and landing in the int32 range). -/
theorem usageToMetadata_normalizes (u : Usage) :
    (usageToMetadata u).promptTokenCount % 2 ^ 32 = u.inputTokens % 2 ^ 32 ∧
    (usageToMetadata u).candidatesTokenCount % 2 ^ 32 = u.outputTokens % 2 ^ 32 ∧
    (usageToMetadata u).totalTokenCount % 2 ^ 32 = (u.inputTokens + u.outputTokens) % 2 ^ 32 ∧
    -2 ^ 31 ≤ (usageToMetadata u).promptTokenCount ∧
    (usageToMetadata u).promptTokenCount < 2 ^ 31 ∧
    -2 ^ 31 ≤ (usageToMetadata u).candidatesTokenCount ∧
    (usageToMetadata u).candidatesTokenCount < 2 ^ 31 ∧
    -2 ^ 31 ≤ (usageToMetadata u).totalTokenCount ∧
    (usageToMetadata u).totalTokenCount < 2 ^ 31 := by
  simp only [usageToMetadata, int32, int64]
  refine ⟨?_, ?_, ?_, ?_, ?_, ?_, ?_, ?_, ?_⟩ <;> omega

/-! ### C6: role translation -/

/-- C6: a non-nil content that yields at least one block becomes an assistant
message when its role is "model" or "assistant", and a user message for every
other role. -/
theorem contentsToMessages_role (c : Content) (rest : List (Option Content))
    (b : ContentBlockParamUnion) (bs : List ContentBlockParamUnion)
    (h : partsToBlocks c.parts = b :: bs) :
    contentsToMessages (some c :: rest) =
      { role := if c.role = "model" ∨ c.role = "assistant" then "assistant" else "user"
        content := b :: bs } :: contentsToMessages rest := by
  simp only [contentsToMessages, h]
  split_ifs <;> rfl

/-- C6 witness: a content with the unknown role "tool" and one text part
becomes a user message; one with role "model" becomes an assistant message. -/
theorem contentsToMessages_role_witness :
    contentsToMessages [some { role := "tool", parts := [{ text := "hi", functionCall := none, functionResponse := none }] }] =
      [{ role := if ("tool" : String) = "model" ∨ ("tool" : String) = "assistant" then "assistant" else "user"
         content := [ContentBlockParamUnion.text "hi"] }] :=
  contentsToMessages_role
    { role := "tool", parts := [{ text := "hi", functionCall := none, functionResponse := none }] }
    [] (ContentBlockParamUnion.text "hi") [] rfl

/-! ### C10: no empty provider messages -/

theorem partsToBlocks_eq_nil_of_empty (parts : List Part)
    (h : ∀ p ∈ parts, p.text = "" ∧ p.functionCall = none ∧ p.functionResponse = none) :
    partsToBlocks parts = [] := by
  induction parts with
  | nil => rfl
  | cons p rest ih =>
    obtain ⟨ht, hfc, hfr⟩ := h p (List.mem_cons_self p rest)
    have hrest := ih fun q hq => h q (List.mem_cons_of_mem p hq)
    simp [partsToBlocks, ht, hfc, hfr, hrest]

/-- C10: every provider message built by `contentsToMessages` has at least
one content block; nil contents, and contents all of whose parts are empty,
are dropped. -/
theorem contentsToMessages_no_empty_message :
    (∀ (contents : List (Option Content)) (m : MessageParam),
       m ∈ contentsToMessages contents → m.content ≠ []) ∧
    (∀ rest : List (Option Content), contentsToMessages (none :: rest) = contentsToMessages rest) ∧
    (∀ (c : Content) (rest : List (Option Content)),
       (∀ p ∈ c.parts, p.text = "" ∧ p.functionCall = none ∧ p.functionResponse = none) →
       contentsToMessages (some c :: rest) = contentsToMessages rest) := by
  refine ⟨fun contents => ?_, fun rest => rfl, fun c rest h => ?_⟩
  · induction contents with
    | nil => intro m hm; cases hm
    | cons oc rest ih =>
      intro m hm
      match oc with
      | none => exact ih m hm
      | some c =>
        revert hm
        simp only [contentsToMessages]
        split
        · exact ih m
        · intro hm
          rcases List.mem_cons.mp hm with hEq | hMem
          · subst hEq
            split_ifs <;> simp [NewAssistantMessage, NewUserMessage]
          · exact ih m hMem
  · simp only [contentsToMessages, partsToBlocks_eq_nil_of_empty c.parts h]

/-- C10 witness: a nil content and a content holding only an empty part are
both dropped, and the surviving message is non-empty. -/
theorem contentsToMessages_no_empty_message_witness :
    contentsToMessages
        [some { role := "user", parts := [{ text := "", functionCall := none, functionResponse := none }] }] = [] :=
  contentsToMessages_no_empty_message.2.2
    { role := "user", parts := [{ text := "", functionCall := none, functionResponse := none }] }
    []
    (by intro p hp
        rw [List.mem_singleton] at hp
        subst hp
        exact ⟨rfl, rfl, rfl⟩)

/-! ### C7: the MaxTokens default -/

/-- C7: the provider call's MaxTokens is the config's MaxOutputTokens when
the config is present with MaxOutputTokens > 0, and the default 8192
otherwise. -/
theorem buildParams_maxTokens (modelName : String) (req : LLMRequest) :
    (buildParams modelName req).maxTokens =
      match req.config with
      | some cfg => if cfg.maxOutputTokens > 0 then cfg.maxOutputTokens else defaultMaxTokens
      | none => defaultMaxTokens := by
  cases hc : req.config with
  | none => simp [buildParams, hc]
  | some cfg =>
    simp only [buildParams, hc]
    repeat' split
    all_goals rfl

/-! ### C9: the system prompt -/

/-- C9: with a non-nil system instruction, the provider system prompt is a
single text block joining the instruction's non-empty text parts with
newlines — and stays unset when there is no non-empty text part. -/
theorem buildParams_system (modelName : String) (req : LLMRequest)
    (cfg : GenerateContentConfig) (si : Content)
    (h1 : req.config = some cfg) (h2 : cfg.systemInstruction = some si) :
    (buildParams modelName req).system =
      match nonEmptyTexts si.parts with
      | [] => []
      | ps => [{ type := "text", text := String.intercalate "\n" ps }] := by
  simp only [buildParams, h1, h2, systemFromContent]
  repeat' split
  all_goals first
    | rfl
    | simp_all

/-- C9 witness: a system instruction with texts "a", "" and "b" produces the
single block "a\nb"; one with only empty texts leaves the prompt unset. -/
theorem buildParams_system_witness :
    (buildParams "claude-sonnet-4-5"
        { contents := []
          config := some
            { systemInstruction := some
                { role := "user"
                  parts := [{ text := "a", functionCall := none, functionResponse := none },
                            { text := "", functionCall := none, functionResponse := none },
                            { text := "b", functionCall := none, functionResponse := none }] }
              maxOutputTokens := 0
              temperature := none
              topP := none
              stopSequences := []
              tools := [] } }).system =
      [{ type := "text", text := "a" ++ "\n" ++ "b" }] := by
  have h := buildParams_system "claude-sonnet-4-5"
    { contents := []
      config := some
        { systemInstruction := some
            { role := "user"
              parts := [{ text := "a", functionCall := none, functionResponse := none },
                        { text := "", functionCall := none, functionResponse := none },
                        { text := "b", functionCall := none, functionResponse := none }] }
          maxOutputTokens := 0
          temperature := none
          topP := none
          stopSequences := []
          tools := [] } }
    _ _ rfl rfl
  simpa [nonEmptyTexts, String.intercalate] using h

/-! ### C4: the two tool extractors agree on structured schemas -/

theorem toolFromFD_eq_of_isSome (fd : FunctionDeclaration)
    (h : fd.parameters.isSome = true) :
    claudeModel.toolFromFD fd = toolFromFD fd := by
  cases hp : fd.parameters with
  | none => rw [hp] at h; cases h
  | some s => simp only [claudeModel.toolFromFD, toolFromFD, hp]

theorem extractToolsFor_eq_of_isSome (fds : List FunctionDeclaration)
    (h : ∀ fd ∈ fds, fd.parameters.isSome = true) :
    claudeModel.extractToolsFor fds = extractToolsFor fds := by
  induction fds with
  | nil => rfl
  | cons fd rest ih =>
    simp only [claudeModel.extractToolsFor, extractToolsFor]
    rw [toolFromFD_eq_of_isSome fd (h fd (List.mem_cons_self fd rest)),
        ih fun q hq => h q (List.mem_cons_of_mem fd hq)]

/-- C4: when every function declaration carries a non-nil structured
Parameters schema, the method `(*claudeModel).extractTools` of model.go and
the free `extractTools` of convert.go build the same provider tool list. -/
theorem extractTools_method_eq_free (tools : List Tool)
    (h : ∀ t ∈ tools, ∀ fd ∈ t.functionDeclarations, fd.parameters.isSome = true) :
    claudeModel.extractTools tools = extractTools tools := by
  induction tools with
  | nil => rfl
  | cons t rest ih =>
    simp only [claudeModel.extractTools, extractTools]
    rw [extractToolsFor_eq_of_isSome t.functionDeclarations (h t (List.mem_cons_self t rest)),
        ih fun q hq => h q (List.mem_cons_of_mem t hq)]

/-- C4 witness: both extractors on one concrete tool with a structured
schema. -/
theorem extractTools_method_eq_free_witness :
    claudeModel.extractTools
        [{ functionDeclarations :=
            [{ name := "get_weather"
               description := "weather lookup"
               parameters := some (.mk "OBJECT" ""
                 [("city", .mk "STRING" "the city" [] [] [] none)] ["city"] [] none)
               parametersJsonSchema := none }] }] =
      extractTools
        [{ functionDeclarations :=
            [{ name := "get_weather"
               description := "weather lookup"
               parameters := some (.mk "OBJECT" ""
                 [("city", .mk "STRING" "the city" [] [] [] none)] ["city"] [] none)
               parametersJsonSchema := none }] }] :=
  extractTools_method_eq_free _ (by decide)

/-! ### C8: function-call translation round-trips -/

/-- C8: a function-call part maps to a tool_use block with the same id, args
and name; a tool_use reply block maps back to a function-call part with the
same id, name and decoded args; and a function-call part whose args are a
JSON fixed point comes back equal after the round trip through the provider
echo. -/
theorem functionCall_roundTrip :
    (∀ (p : Part) (fc : FunctionCall) (rest : List Part),
       p.text = "" → p.functionCall = some fc →
       partsToBlocks (p :: rest) =
         ContentBlockParamUnion.toolUse fc.id (GoVal.vmap fc.args) fc.name :: partsToBlocks rest) ∧
    (∀ b : ContentBlock, b.type = "tool_use" →
       partOfBlock b = some
         { text := ""
           functionCall := some { id := b.id, name := b.name, args := unmarshalArgs b.input }
           functionResponse := none }) ∧
    (∀ (p : Part) (fc : FunctionCall),
       p.text = "" → p.functionCall = some fc → p.functionResponse = none →
       jsonRoundTrip (GoVal.vmap fc.args) = GoVal.vmap fc.args →
       partOfBlock (echoToolUse fc.id (GoVal.vmap fc.args) fc.name) = some p) := by
  refine ⟨fun p fc rest ht hfc => ?_, fun b hb => ?_, fun p fc ht hfc hfr hnorm => ?_⟩
  · simp [partsToBlocks, ht, hfc]
  · simp [partOfBlock, hb]
  · obtain ⟨t, ofc, ofr⟩ := p
    obtain ⟨i, n, a⟩ := fc
    cases ht
    cases hfc
    cases hfr
    simp [partOfBlock, echoToolUse, unmarshalArgs, hnorm]

/-- C8 witness: the round trip at a concrete function-call part with
JSON-normal args. -/
theorem functionCall_roundTrip_witness :
    partOfBlock (echoToolUse "toolu_1" (GoVal.vmap [("city", GoVal.vstr "Oslo")]) "get_weather") =
      some { text := ""
             functionCall := some { id := "toolu_1", name := "get_weather",
                                    args := [("city", GoVal.vstr "Oslo")] }
             functionResponse := none } :=
  functionCall_roundTrip.2.2
    { text := ""
      functionCall := some { id := "toolu_1", name := "get_weather",
                             args := [("city", GoVal.vstr "Oslo")] }
      functionResponse := none }
    { id := "toolu_1", name := "get_weather", args := [("city", GoVal.vstr "Oslo")] }
    rfl rfl rfl rfl

/-! ### C2: streaming yields partial deltas, then the accumulated turn -/

theorem strConcat_filterMap_partOfBlock (l : List ContentBlock) :
    strConcat ((l.filterMap partOfBlock).map Part.text) = strConcat (l.map blockText) := by
  induction l with
  | nil => rfl
  | cons b rest ih =>
    by_cases h1 : b.type = "text"
    · simp [partOfBlock, blockText, h1, strConcat, ih]
    · by_cases h2 : b.type = "tool_use"
      · simp [partOfBlock, blockText, h1, h2, strConcat, ih, String.empty_append]
      · simp [partOfBlock, blockText, h1, h2, strConcat, ih, String.empty_append]

/-- The turn text of a mapped response is the turn text of the provider
message it maps. -/
theorem respText_messageToLLMResponse (msg : Message) :
    respText (messageToLLMResponse msg) = msgText msg := by
  simp [respText, messageToLLMResponse, msgText, strConcat_filterMap_partOfBlock]

theorem strConcat_set_last (l : List ContentBlock) :
    ∀ (idx : Nat) (h : idx < l.length) (s : String),
      idx + 1 = l.length → (l.get ⟨idx, h⟩).type = "text" →
      strConcat ((l.set idx { l.get ⟨idx, h⟩ with text := (l.get ⟨idx, h⟩).text ++ s }).map blockText)
        = strConcat (l.map blockText) ++ s := by
  induction l with
  | nil => intro idx h s _ _; exact absurd h (Nat.not_lt_zero idx)
  | cons a rest ih =>
    intro idx h s hlen htype
    cases idx with
    | zero =>
      have hrest : rest = [] := by
        cases rest with
        | nil => rfl
        | cons b t => simp at hlen
      subst hrest
      simp only [List.get] at htype
      simp [List.set, blockText, htype, strConcat, String.append_empty]
    | succ n =>
      have h2 : n < rest.length := Nat.lt_of_succ_lt_succ h
      have hlen2 : n + 1 = rest.length := by simpa using hlen
      have htype2 : (rest.get ⟨n, h2⟩).type = "text" := htype
      have step := ih n h2 s hlen2 htype2
      simp only [List.set, List.map, strConcat, List.get]
      rw [step, String.append_assoc]

theorem map_blockText_set_preserve (l : List ContentBlock) :
    ∀ (idx : Nat) (h : idx < l.length) (v : ContentBlock),
      blockText v = blockText (l.get ⟨idx, h⟩) →
      (l.set idx v).map blockText = l.map blockText := by
  induction l with
  | nil => intro idx h v _; exact absurd h (Nat.not_lt_zero idx)
  | cons a rest ih =>
    intro idx h v hv
    cases idx with
    | zero => simp only [List.get] at hv; simp [List.set, hv]
    | succ n =>
      have h2 : n < rest.length := Nat.lt_of_succ_lt_succ h
      simp only [List.set, List.map]
      rw [ih n h2 v hv]

/-- One well-formed accumulation step extends the turn text by exactly the
event's text delta (and by nothing for any other event). -/
theorem msgText_Accumulate (msg : Message) (e : MessageStreamEventUnion) (msg2 : Message)
    (hok : eventOK msg e = true) (hacc : Accumulate msg e = .ok msg2) :
    msgText msg2 = msgText msg ++ (textDelta e).getD "" := by
  cases e with
  | messageStart m =>
    simp only [Accumulate, Except.ok.injEq] at hacc
    subst hacc
    simp only [eventOK, Bool.and_eq_true, List.isEmpty_iff] at hok
    simp [msgText, hok.1, hok.2, textDelta, strConcat, String.append_empty]
  | contentBlockStart idx b =>
    simp only [Accumulate, Except.ok.injEq] at hacc
    subst hacc
    simp only [eventOK, beq_iff_eq] at hok
    simp [msgText, strConcat_append, blockText, hok, strConcat, textDelta,
          String.append_empty, ite_self]
  | contentBlockDelta idx d =>
    simp only [eventOK] at hok
    split at hok
    case isFalse => cases hok
    case isTrue hidx =>
      cases d with
      | textDelta s =>
        simp only [Bool.and_eq_true, beq_iff_eq, Nat.beq_eq] at hok
        obtain ⟨hlen, htype⟩ := hok
        simp only [Accumulate, dif_pos hidx, Except.ok.injEq] at hacc
        subst hacc
        simp only [msgText, textDelta, Option.getD]
        exact strConcat_set_last msg.content idx hidx s hlen htype
      | inputJSONDelta s =>
        simp only [Accumulate, dif_pos hidx, Except.ok.injEq] at hacc
        subst hacc
        simp only [msgText, textDelta, Option.getD, String.append_empty]
        exact congrArg strConcat (map_blockText_set_preserve msg.content idx hidx _ rfl)
      | otherDelta =>
        simp only [Accumulate, dif_pos hidx, Except.ok.injEq] at hacc
        subst hacc
        simp [textDelta, String.append_empty]
  | contentBlockStop idx =>
    simp only [Accumulate, Except.ok.injEq] at hacc
    subst hacc
    simp [textDelta, String.append_empty]
  | messageDelta sr u =>
    simp only [Accumulate, Except.ok.injEq] at hacc
    subst hacc
    simp [msgText, textDelta, String.append_empty]
  | messageStop =>
    simp only [Accumulate, Except.ok.injEq] at hacc
    subst hacc
    simp [textDelta, String.append_empty]

/-- The streaming loop on a well-formed, error-free stream: one partial
response per text delta, then the accumulated final response; the
accumulated turn text grows by exactly the deltas. -/
theorem generateStreamLoop_spec (es : List MessageStreamEventUnion) :
    ∀ msg : Message, streamWF msg es = true →
      generateStreamLoop msg es none =
        (textDeltas es).map (fun d => (some (partialTextResponse d), none))
          ++ [(some { messageToLLMResponse (accumFold msg es) with turnComplete := true }, none)] ∧
      msgText (accumFold msg es) = msgText msg ++ strConcat (textDeltas es) := by
  induction es with
  | nil =>
    intro msg _
    exact ⟨rfl, by simp [accumFold, textDeltas, strConcat, String.append_empty]⟩
  | cons e es ih =>
    intro msg h
    simp only [streamWF, Bool.and_eq_true] at h
    obtain ⟨hok, hrest⟩ := h
    cases hacc : Accumulate msg e with
    | error err => rw [hacc] at hrest; cases hrest
    | ok msg2 =>
      rw [hacc] at hrest
      obtain ⟨ih1, ih2⟩ := ih msg2 hrest
      have hfold : accumFold msg (e :: es) = accumFold msg2 es := by
        simp [accumFold, hacc]
      have htext := msgText_Accumulate msg e msg2 hok hacc
      cases hd : textDelta e with
      | some d =>
        constructor
        · simp only [generateStreamLoop, hacc, hd, textDeltas, hfold, ih1, List.map_cons,
                     List.cons_append]
        · rw [hfold, ih2, htext, hd]
          simp only [textDeltas, hd, strConcat, Option.getD, String.append_assoc]
      | none =>
        constructor
        · simp only [generateStreamLoop, hacc, hd, textDeltas, hfold, ih1]
        · rw [hfold, ih2, htext, hd]
          simp only [textDeltas, hd, Option.getD, String.append_empty]

/-- C2: on an error-free event stream, streaming yields one partial response
per text delta — Partial set, exactly one text part holding that delta — and
finally the accumulated response with TurnComplete set, whose text is the
concatenation of all previously yielded deltas. -/
theorem generateStream_partials_then_complete (events : List MessageStreamEventUnion)
    (h : streamWF zeroMessage events = true) :
    generateStream events none =
      (textDeltas events).map (fun d => (some (partialTextResponse d), none))
        ++ [(some (finalResponse events), none)] ∧
    (∀ d : String,
       (partialTextResponse d).Partial = true ∧
       (partialTextResponse d).content =
         some { role := "model"
                parts := [{ text := d, functionCall := none, functionResponse := none }] }) ∧
    (finalResponse events).turnComplete = true ∧
    respText (finalResponse events) = strConcat (textDeltas events) := by
  obtain ⟨h1, h2⟩ := generateStreamLoop_spec events zeroMessage h
  refine ⟨h1, fun d => ⟨rfl, rfl⟩, rfl, ?_⟩
  have h3 : respText (finalResponse events)
      = msgText (accumFold zeroMessage events) := by
    simp [finalResponse, respText, messageToLLMResponse, msgText, strConcat_filterMap_partOfBlock]
  rw [h3, h2]
  simp [msgText, zeroMessage, strConcat, String.empty_append]

/-- C2 witness: the concrete well-formed stream `evC2` of two text deltas. -/
theorem generateStream_partials_then_complete_witness :
    generateStream evC2 none =
      (textDeltas evC2).map (fun d => (some (partialTextResponse d), none))
        ++ [(some (finalResponse evC2), none)] :=
  (generateStream_partials_then_complete evC2 (by rfl)).1

end Claude
